import Mathlib

/-!
Verification of the twister-blitz voice-matching and round logic.

The embedding models JavaScript strings as lists of Unicode code points
(`List Nat`); `codes` converts a Lean string literal to that form for
concrete inputs.  The functions below are translated from
`src/components/VoiceInput.tsx`, `src/components/GameInterface.tsx` and the
twister service (`src/unnamed/part_003`).
-/

namespace TwisterBlitz

/-- JavaScript strings, modelled as lists of Unicode code points. -/
abbrev JsStr := List Nat

/-- Code-point list of a Lean string literal, for concrete test inputs. -/
def codes (s : String) : JsStr := s.data.map Char.toNat

/-- Whitespace as matched by JavaScript trim and the regex class backslash-s
(the ASCII part, which is all that can occur in the inputs the game handles):
space, tab, line feed, vertical tab, form feed, carriage return. -/
def isJsWs (c : Nat) : Bool :=
  c = 32 || c = 9 || c = 10 || c = 11 || c = 12 || c = 13

/-- Per-character model of JavaScript toLowerCase (ASCII range). -/
def toLowerChar (c : Nat) : Nat := if 65 ≤ c ∧ c ≤ 90 then c + 32 else c

/-- Characters kept by the regex replace in normalize: lowercase letters,
digits, and the space character (the class a-z, 0-9, space). -/
def isKeptChar (c : Nat) : Bool :=
  (97 ≤ c && c ≤ 122) || (48 ≤ c && c ≤ 57) || c = 32

/-- Drop leading whitespace. -/
def trimLeft (l : JsStr) : JsStr := l.dropWhile isJsWs

/-- Drop trailing whitespace. -/
def trimRight (l : JsStr) : JsStr := (l.reverse.dropWhile isJsWs).reverse

/-- Model of JavaScript String.prototype.trim. -/
def trim (l : JsStr) : JsStr := trimRight (trimLeft l)

/-- The lower-case-and-strip part of normalize, before the final trim. -/
def lowerStrip (l : JsStr) : JsStr := (l.map toLowerChar).filter isKeptChar

/-- Model of normalize at `src/components/VoiceInput.tsx:61`:
str.toLowerCase().replace(non-[a-z0-9 ] chars, empty).trim(). -/
def normalize (l : JsStr) : JsStr := trim (lowerStrip l)

/-- Model of JavaScript String.prototype.includes: the second list occurs as
a contiguous substring of the first. -/
def includes : JsStr → JsStr → Bool
  | [], small => small.isEmpty
  | c :: t, small => small.isPrefixOf (c :: t) || includes t small

/-- Accumulator-based splitting on whitespace, dropping empty fragments. -/
def wordsAux : JsStr → JsStr → List JsStr
  | [], acc => if acc = [] then [] else [acc.reverse]
  | c :: rest, acc =>
    if isJsWs c then
      if acc = [] then wordsAux rest [] else acc.reverse :: wordsAux rest []
    else wordsAux rest (c :: acc)

/-- Model of split on the whitespace regex followed by filtering out empty
words, as done in checkMatch (`src/components/VoiceInput.tsx:99-100`). -/
def words (l : JsStr) : List JsStr := wordsAux l []

/- ### Lemmas about dropWhile, trim and normalize -/

theorem dropWhile_append_of_forall {p : Nat → Bool} {A : JsStr} (M : JsStr)
    (hA : ∀ c ∈ A, p c = true) :
    (A ++ M).dropWhile p = M.dropWhile p := by
  induction A with
  | nil => simp
  | cons a A ih =>
    have ha : p a = true := hA a (List.mem_cons_self a A)
    simp only [List.cons_append, List.dropWhile_cons, ha, if_true]
    exact ih fun c hc => hA c (List.mem_cons_of_mem a hc)

theorem dropWhile_append_of_ne_nil {p : Nat → Bool} {M : JsStr} (B : JsStr)
    (hM : M.dropWhile p ≠ []) :
    (M ++ B).dropWhile p = M.dropWhile p ++ B := by
  induction M with
  | nil => simp at hM
  | cons m M ih =>
    by_cases hm : p m = true
    · simp only [List.dropWhile_cons, hm] at hM
      simp only [List.cons_append, List.dropWhile_cons, hm, if_true]
      exact ih (by simpa using hM)
    · simp only [Bool.not_eq_true] at hm
      simp [List.dropWhile_cons, hm]

theorem trim_eq_nil_of_all_ws {l : JsStr} (h : ∀ c ∈ l, isJsWs c = true) :
    trim l = [] := by
  have h1 : trimLeft l = [] := List.dropWhile_eq_nil_iff.mpr h
  show trimRight (trimLeft l) = []
  rw [h1]
  rfl

/-- Leading and trailing all-whitespace segments do not change trim. -/
theorem trim_append_ws (A M B : JsStr)
    (hA : ∀ c ∈ A, isJsWs c = true) (hB : ∀ c ∈ B, isJsWs c = true) :
    trim (A ++ M ++ B) = trim M := by
  have hleft : trimLeft (A ++ M ++ B) = trimLeft (M ++ B) := by
    show (A ++ M ++ B).dropWhile isJsWs = (M ++ B).dropWhile isJsWs
    rw [List.append_assoc]
    exact dropWhile_append_of_forall (M ++ B) hA
  by_cases hM : trimLeft M = []
  · have hMws : ∀ c ∈ M, isJsWs c = true := List.dropWhile_eq_nil_iff.mp hM
    have h2 : trimLeft (M ++ B) = [] := by
      show (M ++ B).dropWhile isJsWs = []
      rw [dropWhile_append_of_forall B hMws]
      exact List.dropWhile_eq_nil_iff.mpr hB
    show trimRight (trimLeft (A ++ M ++ B)) = trimRight (trimLeft M)
    rw [hleft, h2, hM]
  · have h2 : trimLeft (M ++ B) = trimLeft M ++ B :=
      dropWhile_append_of_ne_nil B hM
    show trimRight (trimLeft (A ++ M ++ B)) = trimRight (trimLeft M)
    rw [hleft, h2]
    show ((trimLeft M ++ B).reverse.dropWhile isJsWs).reverse =
      ((trimLeft M).reverse.dropWhile isJsWs).reverse
    rw [List.reverse_append]
    rw [dropWhile_append_of_forall (trimLeft M).reverse
      (fun c hc => hB c (List.mem_reverse.mp hc))]

/-- Every list is an all-whitespace prefix, its trim, and an all-whitespace
suffix. -/
theorem trim_decomp (l : JsStr) :
    ∃ A B, (∀ c ∈ A, isJsWs c = true) ∧ (∀ c ∈ B, isJsWs c = true) ∧
      l = A ++ trim l ++ B := by
  refine ⟨l.takeWhile isJsWs,
    ((l.dropWhile isJsWs).reverse.takeWhile isJsWs).reverse,
    fun c hc => List.mem_takeWhile_imp hc,
    fun c hc => List.mem_takeWhile_imp (List.mem_reverse.mp hc), ?_⟩
  have h1 : l.takeWhile isJsWs ++ l.dropWhile isJsWs = l :=
    List.takeWhile_append_dropWhile isJsWs l
  have h2 := List.takeWhile_append_dropWhile isJsWs (l.dropWhile isJsWs).reverse
  have h3 := congrArg List.reverse h2
  rw [List.reverse_append, List.reverse_reverse] at h3
  have htrim : trim l = ((l.dropWhile isJsWs).reverse.dropWhile isJsWs).reverse :=
    rfl
  rw [htrim, List.append_assoc, h3, h1]

theorem trim_trim (l : JsStr) : trim (trim l) = trim l := by
  obtain ⟨A, B, hA, hB, hl⟩ := trim_decomp l
  have h1 : trim l = trim (A ++ trim l ++ B) := congrArg trim hl
  rw [trim_append_ws A (trim l) B hA hB] at h1
  exact h1.symm

theorem mem_of_mem_trim {c : Nat} {l : JsStr} (h : c ∈ trim l) : c ∈ l := by
  obtain ⟨A, B, _, _, hl⟩ := trim_decomp l
  rw [hl]
  simp only [List.mem_append]
  exact Or.inl (Or.inr h)

theorem exists_not_ws_of_trim_ne_nil {l : JsStr} (h : trim l ≠ []) :
    ∃ c ∈ trim l, isJsWs c = false := by
  by_contra hcon
  push_neg at hcon
  have hall : ∀ c ∈ trim l, isJsWs c = true := by
    intro c hc
    have := hcon c hc
    revert this
    cases isJsWs c <;> simp
  have := trim_eq_nil_of_all_ws hall
  rw [trim_trim] at this
  exact h this

theorem lowerStrip_append (X Y : JsStr) :
    lowerStrip (X ++ Y) = lowerStrip X ++ lowerStrip Y := by
  simp [lowerStrip]

theorem toLowerChar_of_ws {c : Nat} (h : isJsWs c = true) : toLowerChar c = c := by
  simp only [isJsWs, Bool.or_eq_true, decide_eq_true_eq] at h
  unfold toLowerChar
  rw [if_neg]
  omega

theorem lowerStrip_ws {X : JsStr} (hX : ∀ c ∈ X, isJsWs c = true) :
    ∀ c ∈ lowerStrip X, isJsWs c = true := by
  intro c hc
  simp only [lowerStrip, List.mem_filter, List.mem_map] at hc
  obtain ⟨⟨x, hx, hxc⟩, _⟩ := hc
  rw [← hxc, toLowerChar_of_ws (hX x hx)]
  exact hX x hx

/-- Normalizing a trimmed string gives the same result as normalizing the
original: trim removes only whitespace, which normalize removes anyway. -/
theorem normalize_trim (l : JsStr) : normalize (trim l) = normalize l := by
  obtain ⟨A, B, hA, hB, hl⟩ := trim_decomp l
  have h1 : normalize l = normalize (A ++ trim l ++ B) := congrArg normalize hl
  have h2 : normalize (A ++ trim l ++ B) = normalize (trim l) := by
    simp only [normalize, lowerStrip_append]
    exact trim_append_ws _ _ _ (lowerStrip_ws hA) (lowerStrip_ws hB)
  exact (h1.trans h2).symm

theorem kept_of_mem_normalize {c : Nat} {l : JsStr} (h : c ∈ normalize l) :
    isKeptChar c = true := by
  have h1 : c ∈ lowerStrip l := mem_of_mem_trim h
  exact (List.mem_filter.mp h1).2

theorem toLowerChar_of_kept {c : Nat} (h : isKeptChar c = true) :
    toLowerChar c = c := by
  simp only [isKeptChar, Bool.or_eq_true, Bool.and_eq_true,
    decide_eq_true_eq] at h
  unfold toLowerChar
  rw [if_neg]
  omega

theorem wordsAux_ne_nil (l : JsStr) (acc : JsStr)
    (h : (∃ c ∈ l, isJsWs c = false) ∨ acc ≠ []) : wordsAux l acc ≠ [] := by
  induction l generalizing acc with
  | nil =>
    rcases h with h | h
    · obtain ⟨c, hc, _⟩ := h
      exact absurd hc (List.not_mem_nil c)
    · simp [wordsAux, h]
  | cons c rest ih =>
    by_cases hws : isJsWs c = true
    · by_cases hacc : acc = []
      · have hex : ∃ d ∈ rest, isJsWs d = false := by
          rcases h with h | h
          · obtain ⟨d, hd, hdws⟩ := h
            rcases List.mem_cons.mp hd with rfl | hd'
            · rw [hws] at hdws; cases hdws
            · exact ⟨d, hd', hdws⟩
          · exact absurd hacc h
        simp only [wordsAux, hws, if_true, hacc]
        exact ih [] (Or.inl hex)
      · simp [wordsAux, hws, hacc]
    · have hws' : isJsWs c = false := by revert hws; cases isJsWs c <;> simp
      simp only [wordsAux, hws', Bool.false_eq_true, if_false]
      exact ih (c :: acc) (Or.inr (by simp))

theorem words_ne_nil {l : JsStr} (h : ∃ c ∈ l, isJsWs c = false) :
    words l ≠ [] := wordsAux_ne_nil l [] (Or.inl h)

theorem words_normalize_ne_nil {l : JsStr} (h : normalize l ≠ []) :
    words (normalize l) ≠ [] := by
  apply words_ne_nil
  have h1 : trim (normalize l) = normalize l := by
    show trim (trim (lowerStrip l)) = normalize l
    rw [trim_trim]
    rfl
  have h2 : trim (normalize l) ≠ [] := by rw [h1]; exact h
  obtain ⟨c, hc, hcws⟩ := exists_not_ws_of_trim_ne_nil h2
  exact ⟨c, by rw [← h1]; exact hc, hcws⟩

theorem isPrefixOf_self (l : JsStr) : l.isPrefixOf l = true := by
  induction l with
  | nil => rfl
  | cons a t ih => simp [List.isPrefixOf, ih]

theorem includes_self (l : JsStr) : includes l l = true := by
  cases l with
  | nil => rfl
  | cons c t => simp [includes, isPrefixOf_self]

theorem includes_nil_of_ne_nil {small : JsStr} (h : small ≠ []) :
    includes [] small = false := by
  cases small with
  | nil => exact absurd rfl h
  | cons c t => rfl

theorem includes_of_nil (big : JsStr) : includes big [] = true := by
  cases big with
  | nil => rfl
  | cons c t => simp [includes, List.isPrefixOf]

theorem normalize_eq_nil_of_trim_eq_nil {l : JsStr} (h : trim l = []) :
    normalize l = [] := by
  rw [← normalize_trim, h]
  rfl

/- ### The phrase matcher -/

/-- Model of checkMatch at `src/components/VoiceInput.tsx:74-124`.  The
target phrase is normalized up front (the component caches it in
normalizedTargetRef, recomputed from the target phrase).  The two 0.6
thresholds are floating-point in the source; they are modelled exactly as
the rational 6/10, which agrees with the double computation at every string
length the program can encounter. -/
def checkMatch (statement targetPhrase : JsStr) : Bool :=
  let normalizedTarget := normalize targetPhrase
  if normalizedTarget = [] ∨ trim statement = [] then false
  else
    let normalizedInput := normalize statement
    if includes normalizedInput normalizedTarget then true
    else if includes normalizedTarget normalizedInput &&
        decide (10 * normalizedInput.length ≥ 6 * normalizedTarget.length) then
      true
    else
      let inputWords := words normalizedInput
      let targetWords := words normalizedTarget
      if inputWords.length > 0 && targetWords.length > 0 then
        let matchingWords := targetWords.filter fun tWord =>
          inputWords.any fun iWord => includes iWord tWord || includes tWord iWord
        if decide (10 * matchingWords.length ≥ 6 * targetWords.length) then true
        else false
      else false

/-- Modelled from the spec wording of claim C1: the matcher is exactly the
three checks evaluated in order with short-circuiting, for every target and
utterance, with no edge-case guard. -/
def specIsMatch (utterance target : JsStr) : Bool :=
  let nu := normalize utterance
  let nt := normalize target
  if includes nu nt then true
  else if includes nt nu && decide (10 * nu.length ≥ 6 * nt.length) then true
  else
    let uWords := words nu
    let tWords := words nt
    decide (10 * (tWords.filter fun tW =>
      uWords.any fun uW => includes uW tW || includes tW uW).length ≥
      6 * tWords.length)

/-- C1 counterexample: with target whose normalized form is empty and a
nonempty utterance, the first check of the claimed three-check algorithm
succeeds (every string contains the empty string), yet checkMatch returns
false because of its edge-case guard, so the claimed algorithm is not what
checkMatch computes for every target and utterance. -/
theorem checkMatch_three_checks_cex :
    checkMatch (codes "a") (codes "!") = false ∧
    specIsMatch (codes "a") (codes "!") = true :=
  ⟨by decide, by decide⟩

/-- C1 (amended): for every target phrase whose normalized form is nonempty,
checkMatch computes exactly the three checks of the claim, evaluated in
order with short-circuiting, returning false when none succeeds. -/
theorem checkMatch_eq_specIsMatch (statement targetPhrase : JsStr)
    (h : normalize targetPhrase ≠ []) :
    checkMatch statement targetPhrase = specIsMatch statement targetPhrase := by
  have htw : words (normalize targetPhrase) ≠ [] := words_normalize_ne_nil h
  have htwpos : 0 < (words (normalize targetPhrase)).length :=
    List.length_pos.mpr htw
  have hntpos : 0 < (normalize targetPhrase).length := List.length_pos.mpr h
  by_cases hts : trim statement = []
  · have hni : normalize statement = [] := normalize_eq_nil_of_trim_eq_nil hts
    simp only [checkMatch, specIsMatch, hni]
    rw [if_pos (Or.inr hts)]
    rw [if_neg (by simp [includes_nil_of_ne_nil h])]
    rw [if_neg (by
      simp only [includes_of_nil, Bool.true_and, Bool.and_eq_true,
        decide_eq_true_eq, List.length_nil]
      omega)]
    have hfil : (words (normalize targetPhrase)).filter (fun tW =>
        (words ([] : JsStr)).any fun uW => includes uW tW || includes tW uW) = [] := by
      apply List.filter_eq_nil_iff.mpr
      intro a _
      simp [words, wordsAux]
    rw [hfil]
    simp only [List.length_nil]
    symm
    rw [decide_eq_false]
    omega
  · simp only [checkMatch, specIsMatch]
    rw [if_neg (fun hor => hor.elim h hts)]
    by_cases h1 : includes (normalize statement) (normalize targetPhrase) = true
    · rw [if_pos h1, if_pos h1]
    · rw [if_neg h1, if_neg h1]
      by_cases h2 : (includes (normalize targetPhrase) (normalize statement) &&
          decide (10 * (normalize statement).length ≥
            6 * (normalize targetPhrase).length)) = true
      · rw [if_pos h2, if_pos h2]
      · rw [if_neg h2, if_neg h2]
        by_cases hiw : words (normalize statement) = []
        · rw [if_neg (by simp [hiw])]
          have hfil : (words (normalize targetPhrase)).filter (fun tW =>
              (words (normalize statement)).any fun uW =>
                includes uW tW || includes tW uW) = [] := by
            apply List.filter_eq_nil_iff.mpr
            intro a _
            simp [hiw]
          rw [hfil]
          simp only [List.length_nil]
          symm
          rw [decide_eq_false]
          omega
        · rw [if_pos (by
            simp only [Bool.and_eq_true, decide_eq_true_eq]
            exact ⟨List.length_pos.mpr hiw, htwpos⟩)]
          by_cases hr : (10 * ((words (normalize targetPhrase)).filter fun tW =>
              (words (normalize statement)).any fun uW =>
                includes uW tW || includes tW uW).length ≥
              6 * (words (normalize targetPhrase)).length)
          · rw [if_pos (by exact decide_eq_true hr), decide_eq_true hr]
          · rw [if_neg (by simp [hr]), decide_eq_false hr]

/-- C1 witness: instantiation of the amended claim at a concrete nonempty
target phrase. -/
theorem checkMatch_eq_specIsMatch_witness :
    normalize (codes "red lorry yellow lorry") ≠ [] ∧
    checkMatch (codes "a red lorry and a yellow lorry driving")
        (codes "red lorry yellow lorry") =
      specIsMatch (codes "a red lorry and a yellow lorry driving")
        (codes "red lorry yellow lorry") :=
  ⟨by decide, checkMatch_eq_specIsMatch _ _ (by decide)⟩

/-- C2 counterexample: two strings that both normalize to the empty string
satisfy normalize U = normalize T, yet checkMatch returns false, refuting
the claim in the case it explicitly includes. -/
theorem checkMatch_normalize_eq_cex :
    normalize (codes "!") = normalize (codes "?") ∧
    checkMatch (codes "!") (codes "?") = false :=
  ⟨by decide, by decide⟩

/-- C2 (amended): if the utterance and the target normalize to the same
nonempty string then checkMatch returns true; when both normalize to the
empty string checkMatch returns false instead. -/
theorem checkMatch_of_normalize_eq (utterance target : JsStr)
    (heq : normalize utterance = normalize target)
    (hne : normalize target ≠ []) :
    checkMatch utterance target = true := by
  have hts : trim utterance ≠ [] := by
    intro hts
    exact hne (heq ▸ normalize_eq_nil_of_trim_eq_nil hts)
  simp only [checkMatch]
  rw [if_neg (fun hor => hor.elim hne hts)]
  rw [heq, if_pos (includes_self (normalize target))]

/-- C2 witness: a punctuated utterance that normalizes to the same nonempty
string as the target matches. -/
theorem checkMatch_of_normalize_eq_witness :
    normalize (codes "Hello, world!") = normalize (codes "hello world") ∧
    normalize (codes "hello world") ≠ [] ∧
    checkMatch (codes "Hello, world!") (codes "hello world") = true :=
  ⟨by decide, by decide,
    checkMatch_of_normalize_eq _ _ (by decide) (by decide)⟩

/-- C8: the normalizer is idempotent: normalizing an already-normalized
string changes nothing, since the output contains only lowercase letters,
digits and spaces, with no leading or trailing whitespace. -/
theorem normalize_idempotent (l : JsStr) :
    normalize (normalize l) = normalize l := by
  have hkept : ∀ c ∈ normalize l, isKeptChar c = true := fun c hc =>
    kept_of_mem_normalize hc
  have hmap : (normalize l).map toLowerChar = normalize l := by
    have hfix : ∀ c ∈ normalize l, toLowerChar c = id c := fun c hc =>
      toLowerChar_of_kept (hkept c hc)
    rw [List.map_congr_left hfix, List.map_id]
  have hfil : (normalize l).filter isKeptChar = normalize l :=
    List.filter_eq_self.mpr hkept
  have hls : lowerStrip (normalize l) = normalize l := by
    simp only [lowerStrip]
    rw [hmap, hfil]
  show trim (lowerStrip (normalize l)) = normalize l
  rw [hls]
  show trim (trim (lowerStrip l)) = normalize l
  rw [trim_trim]
  rfl

/- ### The utterance deduplicator (handleResult) -/

/-- Dedup state: the processedStatementsRef set of statement keys.  In the
source a key is the string of the normalized text, an underscore, and the
decimal time window; since normalized text never contains an underscore,
that encoding is injective and the key is modelled as the pair. -/
structure DedupState where
  processed : List (JsStr × Nat)
deriving DecidableEq

/-- Events emitted to the parent component while processing one final
recognition fragment: the onStatementSpoken callback and the onMatch
callback (which the parent turns into a score increment). -/
inductive VoiceEvent
  | statementSpoken (text : JsStr) (isMatch : Bool)
  | matched
deriving DecidableEq

/-- Model of the final-fragment branch of handleResult at
`src/components/VoiceInput.tsx:134-182`, for a single final result:
trim the transcript; drop it silently if empty; otherwise build the dedup
key from the normalized text and the 2-second bucket floor(now/2000), skip
if already recorded, else record it, run checkMatch, emit statementSpoken,
and emit the match callback on a match. -/
def handleFinalResult (targetPhrase rawTranscript : JsStr) (currentTime : Nat)
    (st : DedupState) : DedupState × List VoiceEvent :=
  let transcriptText := trim rawTranscript
  if transcriptText = [] then (st, [])
  else
    let normalizedText := normalize transcriptText
    let timeWindow := currentTime / 2000
    let statementKey := (normalizedText, timeWindow)
    if statementKey ∈ st.processed then (st, [])
    else
      let isM := checkMatch transcriptText targetPhrase
      (⟨statementKey :: st.processed⟩,
        VoiceEvent.statementSpoken transcriptText isM ::
          if isM then [VoiceEvent.matched] else [])

/-- Whether an event is a statementSpoken event. -/
def isSpokenEvt : VoiceEvent → Bool
  | VoiceEvent.statementSpoken _ _ => true
  | VoiceEvent.matched => false

/-- Whether an event is a match callback (score increment). -/
def isMatchedEvt : VoiceEvent → Bool
  | VoiceEvent.statementSpoken _ _ => false
  | VoiceEvent.matched => true

/-- Number of statementSpoken events in an event list. -/
def countSpoken (evs : List VoiceEvent) : Nat := (evs.filter isSpokenEvt).length

/-- Number of match callbacks (score increments) in an event list. -/
def countMatched (evs : List VoiceEvent) : Nat :=
  (evs.filter isMatchedEvt).length

/-- C9: a final recognition fragment whose transcript trims to the empty
string is silently dropped: the dedup state is unchanged and no event of
any kind is emitted. -/
theorem handleFinalResult_empty_dropped (targetPhrase rawTranscript : JsStr)
    (currentTime : Nat) (st : DedupState) (h : trim rawTranscript = []) :
    handleFinalResult targetPhrase rawTranscript currentTime st = (st, []) := by
  simp [handleFinalResult, h]

/-- C9 witness: an all-whitespace final fragment is dropped. -/
theorem handleFinalResult_empty_dropped_witness :
    trim (codes "   ") = [] ∧
    handleFinalResult (codes "hello") (codes "   ") 5000 ⟨[]⟩ = (⟨[]⟩, []) :=
  ⟨by decide, handleFinalResult_empty_dropped _ _ _ _ (by decide)⟩

/-- C3: starting from a fresh dedup state, a first nonempty final utterance
is processed, emitting exactly one statementSpoken event and at most one
match callback; a second final utterance with the same normalized text in
the same 2-second bucket is not processed (no events, state unchanged),
while one in a different bucket is processed again, emitting a second
statementSpoken event. -/
theorem handleFinalResult_dedup (targetPhrase t1 t2 : JsStr) (n1 n2 : Nat)
    (h1 : trim t1 ≠ []) (h2 : trim t2 ≠ [])
    (hn : normalize t1 = normalize t2) :
    countSpoken (handleFinalResult targetPhrase t1 n1 ⟨[]⟩).2 = 1 ∧
    countMatched (handleFinalResult targetPhrase t1 n1 ⟨[]⟩).2 ≤ 1 ∧
    (n1 / 2000 = n2 / 2000 →
      handleFinalResult targetPhrase t2 n2 (handleFinalResult targetPhrase t1 n1 ⟨[]⟩).1 =
        ((handleFinalResult targetPhrase t1 n1 ⟨[]⟩).1, [])) ∧
    (n1 / 2000 ≠ n2 / 2000 →
      countSpoken
        (handleFinalResult targetPhrase t2 n2
          (handleFinalResult targetPhrase t1 n1 ⟨[]⟩).1).2 = 1) := by
  have hkeyeq : normalize (trim t1) = normalize (trim t2) := by
    rw [normalize_trim, normalize_trim, hn]
  have hfirst : handleFinalResult targetPhrase t1 n1 ⟨[]⟩ =
      (⟨[(normalize (trim t1), n1 / 2000)]⟩,
        VoiceEvent.statementSpoken (trim t1) (checkMatch (trim t1) targetPhrase) ::
          if checkMatch (trim t1) targetPhrase then [VoiceEvent.matched] else []) := by
    simp [handleFinalResult, h1]
  refine ⟨?_, ?_, ?_, ?_⟩
  · rw [hfirst]
    by_cases hm : checkMatch (trim t1) targetPhrase = true <;>
      simp [hm, countSpoken, isSpokenEvt, List.filter]
  · rw [hfirst]
    by_cases hm : checkMatch (trim t1) targetPhrase = true <;>
      simp [hm, countMatched, isMatchedEvt, List.filter]
  · intro hb
    rw [hfirst]
    simp [handleFinalResult, h2]
    exact ⟨hkeyeq.symm, hb.symm⟩
  · intro hb
    rw [hfirst]
    have hcond : ¬(normalize (trim t2) = normalize (trim t1) ∧
        n2 / 2000 = n1 / 2000) := fun hc => hb hc.2.symm
    by_cases hm : checkMatch (trim t2) targetPhrase = true <;>
      simp [handleFinalResult, h2, hcond, hm, countSpoken, isSpokenEvt,
        List.filter]

/-- C3 witness: the same utterance delivered at 0ms and again at 100ms
(same bucket) and the bucket-rollover implication instantiated. -/
theorem handleFinalResult_dedup_witness :
    trim (codes "hello") ≠ [] ∧
    (countSpoken (handleFinalResult (codes "hi") (codes "hello") 0 ⟨[]⟩).2 = 1 ∧
      countMatched (handleFinalResult (codes "hi") (codes "hello") 0 ⟨[]⟩).2 ≤ 1 ∧
      (0 / 2000 = 100 / 2000 →
        handleFinalResult (codes "hi") (codes "hello") 100
            (handleFinalResult (codes "hi") (codes "hello") 0 ⟨[]⟩).1 =
          ((handleFinalResult (codes "hi") (codes "hello") 0 ⟨[]⟩).1, [])) ∧
      (0 / 2000 ≠ 100 / 2000 →
        countSpoken
          (handleFinalResult (codes "hi") (codes "hello") 100
            (handleFinalResult (codes "hi") (codes "hello") 0 ⟨[]⟩).1).2 = 1)) :=
  ⟨by decide,
    handleFinalResult_dedup (codes "hi") (codes "hello") (codes "hello") 0 100
      (by decide) (by decide) rfl⟩

/- ### The round state machine (GameInterface) -/

/-- Round status values of the GameState type (`src/unnamed/part_002`).
The loading value is declared in the type but never assigned by
GameInterface. -/
inductive GStatus
  | idle
  | loading
  | playing
  | success
  | failed
deriving DecidableEq

/-- Target score constant (`src/components/GameInterface.tsx:12`). -/
def TARGET_SCORE : Nat := 5

/-- Round duration in seconds (`src/components/GameInterface.tsx:13`). -/
def GAME_DURATION : Int := 60

/-- The GameInterface state relevant to the round machine: the GameState
fields (status, score, timeLeft), together with the startValue captured by
the timer effect when the status last became playing
(`src/components/GameInterface.tsx:58`) and the confettiFiredRef flag. -/
structure GameM where
  status : GStatus
  score : Nat
  timeLeft : Int
  timerStart : Int
  confettiFired : Bool
deriving DecidableEq

/-- Events posted into the round machine: a match callback from VoiceInput,
a timer tick carrying the elapsed whole seconds since the timer started,
the startGame action, the retrySame action, and completion of
fetchNewTwister. -/
inductive GEvent
  | matchEvt
  | tick (elapsed : Nat)
  | start
  | retrySame
  | newTwister
deriving DecidableEq

/-- The direct state update of each event.

matchEvt models handleMatch (`src/components/GameInterface.tsx:149-158`);
the increment is gated on playing status because VoiceInput is wired to
handleMatch only while the game is playing
(`src/components/GameInterface.tsx:839-845` of the rendered tree; the
always-mounted hidden instance has an empty onMatch).

tick models the setInterval callback
(`src/components/GameInterface.tsx:60-76`): timeLeft is recomputed as
max(0, startValue - elapsed) from wall-clock elapsed time, the update is
skipped unless the status is still playing, and reaching 0 sets the status
to failed.

start models startGame (`src/components/GameInterface.tsx:145`); the timer
effect then captures startValue = GAME_DURATION.  retrySame models
`src/components/GameInterface.tsx:176` and newTwister the state update of
fetchNewTwister (`src/components/GameInterface.tsx:33-39`); the loaded
twister text itself plays no role in the round machine. -/
def applyEvent : GEvent → GameM → GameM
  | GEvent.matchEvt, s =>
    if s.status = GStatus.playing then { s with score := s.score + 1 } else s
  | GEvent.tick elapsed, s =>
    if s.status = GStatus.playing then
      let newTimeLeft : Int := max 0 (s.timerStart - (elapsed : Int))
      if newTimeLeft = 0 then
        { s with status := GStatus.failed, timeLeft := 0 }
      else { s with timeLeft := newTimeLeft }
    else s
  | GEvent.start, s =>
    { s with
        status := GStatus.playing, score := 0,
        timeLeft := GAME_DURATION, timerStart := GAME_DURATION }
  | GEvent.retrySame, s =>
    { s with status := GStatus.idle, score := 0, timeLeft := GAME_DURATION }
  | GEvent.newTwister, s =>
    { s with status := GStatus.idle, score := 0, timeLeft := GAME_DURATION }

/-- The win-condition effect (`src/components/GameInterface.tsx:88-94`):
when score has reached TARGET_SCORE while playing and the confetti flag is
unset, set the flag and transition to success. -/
def winCheck (s : GameM) : GameM :=
  if s.score ≥ TARGET_SCORE ∧ s.status = GStatus.playing ∧
      s.confettiFired = false then
    { s with status := GStatus.success, confettiFired := true }
  else s

/-- The confetti-flag reset effect (`src/components/GameInterface.tsx:97-101`):
whenever the status is not success, the flag is cleared. -/
def flagReset (s : GameM) : GameM :=
  if s.status ≠ GStatus.success then { s with confettiFired := false } else s

/-- One step of the round machine: the event's state update followed by the
effects that React runs after every state change. -/
def step (e : GEvent) (s : GameM) : GameM := flagReset (winCheck (applyEvent e s))

/-- Run a sequence of events. -/
def run (es : List GEvent) (s : GameM) : GameM :=
  es.foldl (fun acc e => step e acc) s

/-- The initial GameInterface state (`src/components/GameInterface.tsx:17-22`). -/
def initGame : GameM :=
  { status := GStatus.idle, score := 0, timeLeft := GAME_DURATION,
    timerStart := GAME_DURATION, confettiFired := false }

/-- The state just after startGame runs from the initial state. -/
def startedState : GameM := step GEvent.start initGame

/-- Number of transitions into the success status along a trace. -/
def countSuccess : GameM → List GEvent → Nat
  | _, [] => 0
  | s, e :: es =>
    (if s.status ≠ GStatus.success ∧ (step e s).status = GStatus.success
      then 1 else 0) + countSuccess (step e s) es

theorem run_nil (s : GameM) : run [] s = s := rfl

theorem run_cons (e : GEvent) (es : List GEvent) (s : GameM) :
    run (e :: es) s = run es (step e s) := rfl

theorem run_append (l1 l2 : List GEvent) (s : GameM) :
    run (l1 ++ l2) s = run l2 (run l1 s) := by
  simp [run, List.foldl_append]

theorem countSuccess_append (l1 l2 : List GEvent) (s : GameM) :
    countSuccess s (l1 ++ l2) =
      countSuccess s l1 + countSuccess (run l1 s) l2 := by
  induction l1 generalizing s with
  | nil => simp [countSuccess, run_nil]
  | cons e l1 ih => simp [countSuccess, run_cons, ih, Nat.add_assoc]

/-- The state reached after the fifth match of a fresh round. -/
def postWin : GameM :=
  { status := GStatus.success, score := 5, timeLeft := GAME_DURATION,
    timerStart := GAME_DURATION, confettiFired := true }

theorem step_match_postWin : step GEvent.matchEvt postWin = postWin := by decide

theorem postWin_steady (k : Nat) :
    countSuccess postWin (List.replicate k GEvent.matchEvt) = 0 ∧
      run (List.replicate k GEvent.matchEvt) postWin = postWin := by
  induction k with
  | zero => exact ⟨rfl, rfl⟩
  | succ k ih =>
    rw [List.replicate_succ]
    constructor
    · show (if postWin.status ≠ GStatus.success ∧
          (step GEvent.matchEvt postWin).status = GStatus.success
          then 1 else 0) +
        countSuccess (step GEvent.matchEvt postWin)
          (List.replicate k GEvent.matchEvt) = 0
      rw [step_match_postWin, if_neg (by decide), ih.1]
    · rw [run_cons, step_match_postWin, ih.2]

/-- C4: with TARGET_SCORE = 5, delivering any number n of at least five
match events to a freshly started round transitions the status to success
exactly once, and the additional match events after the fifth cause no
second transition. -/
theorem success_fires_exactly_once (n : Nat) (h : 5 ≤ n) :
    countSuccess startedState (List.replicate n GEvent.matchEvt) = 1 ∧
    (run (List.replicate n GEvent.matchEvt) startedState).status =
      GStatus.success := by
  obtain ⟨k, rfl⟩ : ∃ k, n = 5 + k := ⟨n - 5, by omega⟩
  rw [List.replicate_add, countSuccess_append, run_append]
  have h5c : countSuccess startedState (List.replicate 5 GEvent.matchEvt) = 1 :=
    by decide
  have h5r : run (List.replicate 5 GEvent.matchEvt) startedState = postWin :=
    by decide
  rw [h5c, h5r, (postWin_steady k).1, (postWin_steady k).2]
  exact ⟨rfl, rfl⟩

/-- C4 witness: seven match events, two more than the target, still yield
exactly one success transition. -/
theorem success_fires_exactly_once_witness :
    5 ≤ 7 ∧
    (countSuccess startedState (List.replicate 7 GEvent.matchEvt) = 1 ∧
      (run (List.replicate 7 GEvent.matchEvt) startedState).status =
        GStatus.success) :=
  ⟨by decide, success_fires_exactly_once 7 (by decide)⟩

theorem winCheck_score (s : GameM) : (winCheck s).score = s.score := by
  unfold winCheck
  split <;> rfl

theorem flagReset_score (s : GameM) : (flagReset s).score = s.score := by
  unfold flagReset
  split <;> rfl

theorem winCheck_timeLeft (s : GameM) : (winCheck s).timeLeft = s.timeLeft := by
  unfold winCheck
  split <;> rfl

theorem flagReset_timeLeft (s : GameM) :
    (flagReset s).timeLeft = s.timeLeft := by
  unfold flagReset
  split <;> rfl

theorem winCheck_timerStart (s : GameM) :
    (winCheck s).timerStart = s.timerStart := by
  unfold winCheck
  split <;> rfl

theorem flagReset_timerStart (s : GameM) :
    (flagReset s).timerStart = s.timerStart := by
  unfold flagReset
  split <;> rfl

theorem flagReset_status (s : GameM) : (flagReset s).status = s.status := by
  unfold flagReset
  split <;> rfl

/-- C5: no operation of the game increases the score from a state whose
status is not playing: match events are only delivered while playing,
ticks never touch the score, and start, retry and new-twister reset it
to zero. -/
theorem score_increase_only_playing (e : GEvent) (s : GameM)
    (h : s.status ≠ GStatus.playing) : (step e s).score ≤ s.score := by
  have hstep : (step e s).score = (applyEvent e s).score := by
    rw [step, flagReset_score, winCheck_score]
  rw [hstep]
  cases e with
  | matchEvt => rw [applyEvent, if_neg h]
  | tick elapsed => rw [applyEvent, if_neg h]
  | start => simp [applyEvent]
  | retrySame => simp [applyEvent]
  | newTwister => simp [applyEvent]

/-- C5 witness: a match event delivered in a failed state does not
increase the score. -/
theorem score_increase_only_playing_witness :
    (⟨GStatus.failed, 3, 0, 60, false⟩ : GameM).status ≠ GStatus.playing ∧
    (step GEvent.matchEvt ⟨GStatus.failed, 3, 0, 60, false⟩).score ≤ 3 :=
  ⟨by decide, score_increase_only_playing _ _ (by decide)⟩

/-- A playing state with a fresh 60-second timer and no score yet. -/
def freshPlaying (s : GameM) : Prop :=
  s.status = GStatus.playing ∧ s.timerStart = 60 ∧ s.score = 0

/-- A timed-out state. -/
def timedOut (s : GameM) : Prop :=
  s.status = GStatus.failed ∧ s.timeLeft = 0

theorem tick_of_timedOut (elapsed : Nat) {s : GameM} (h : timedOut s) :
    timedOut (step (GEvent.tick elapsed) s) := by
  obtain ⟨hst, htl⟩ := h
  have h1 : applyEvent (GEvent.tick elapsed) s = s := by
    rw [applyEvent, if_neg (by rw [hst]; intro hc; cases hc)]
  have h2 : winCheck s = s := by
    rw [winCheck, if_neg (by rw [hst]; rintro ⟨-, hc, -⟩; cases hc)]
  rw [step, h1, h2]
  exact ⟨by rw [flagReset_status]; exact hst, by rw [flagReset_timeLeft]; exact htl⟩

theorem tick_of_freshPlaying (elapsed : Nat) {s : GameM}
    (h : freshPlaying s) :
    (60 ≤ elapsed → timedOut (step (GEvent.tick elapsed) s)) ∧
    (elapsed < 60 → freshPlaying (step (GEvent.tick elapsed) s)) := by
  obtain ⟨hst, hts, hsc⟩ := h
  constructor
  · intro he
    have hmax : max 0 (s.timerStart - (elapsed : Int)) = 0 := by
      rw [hts]
      apply max_eq_left
      omega
    have h1 : applyEvent (GEvent.tick elapsed) s =
        { s with status := GStatus.failed, timeLeft := 0 } := by
      rw [applyEvent, if_pos hst]
      simp [hmax]
    have h2 : winCheck { s with status := GStatus.failed, timeLeft := 0 } =
        { s with status := GStatus.failed, timeLeft := 0 } := by
      rw [winCheck, if_neg (by rintro ⟨-, hc, -⟩; cases hc)]
    rw [step, h1, h2]
    exact ⟨by rw [flagReset_status], by rw [flagReset_timeLeft]⟩
  · intro he
    have hmax : max 0 (s.timerStart - (elapsed : Int)) = 60 - (elapsed : Int) := by
      rw [hts]
      apply max_eq_right
      omega
    have hne : (60 - (elapsed : Int)) ≠ 0 := by omega
    have h1 : applyEvent (GEvent.tick elapsed) s =
        { s with timeLeft := 60 - (elapsed : Int) } := by
      rw [applyEvent, if_pos hst]
      simp [hmax, hne]
    have h2 : winCheck { s with timeLeft := 60 - (elapsed : Int) } =
        { s with timeLeft := 60 - (elapsed : Int) } := by
      rw [winCheck, if_neg (by
        rintro ⟨hc, -, -⟩
        exact absurd (show s.score ≥ TARGET_SCORE from hc)
          (by rw [hsc]; decide))]
    rw [step, h1, h2]
    refine ⟨by rw [flagReset_status]; exact hst, ?_, ?_⟩
    · rw [flagReset_timerStart]; exact hts
    · rw [flagReset_score]; exact hsc

theorem timedOut_absorb (es : List Nat) :
    ∀ s : GameM, timedOut s → timedOut (run (es.map GEvent.tick) s) := by
  induction es with
  | nil => exact fun s h => h
  | cons e rest ih =>
    intro s h
    rw [List.map_cons, run_cons]
    exact ih _ (tick_of_timedOut e h)

theorem ticks_reach_timeout (es : List Nat) :
    ∀ s : GameM, freshPlaying s → (∃ e ∈ es, 60 ≤ e) →
      timedOut (run (es.map GEvent.tick) s) := by
  induction es with
  | nil =>
    intro s _ hex
    obtain ⟨e, he, -⟩ := hex
    exact absurd he (List.not_mem_nil e)
  | cons e rest ih =>
    intro s hp hex
    rw [List.map_cons, run_cons]
    by_cases he : 60 ≤ e
    · exact timedOut_absorb rest _ ((tick_of_freshPlaying e hp).1 he)
    · have hp' := (tick_of_freshPlaying e hp).2 (by omega)
      have hex' : ∃ d ∈ rest, 60 ≤ d := by
        obtain ⟨d, hd, hd60⟩ := hex
        rcases List.mem_cons.mp hd with rfl | hd'
        · exact absurd hd60 he
        · exact ⟨d, hd', hd60⟩
      exact ih _ hp' hex'

/-- C6: in a freshly started 60-second round with no match events, any
sequence of timer ticks containing one whose wall-clock elapsed time is 60
seconds or more leaves the round failed with timeLeft equal to 0; each tick
recomputes timeLeft as max(0, startValue - elapsed) from the wall clock. -/
theorem timeout_fails_round (es : List Nat) (h : ∃ e ∈ es, 60 ≤ e) :
    (run (es.map GEvent.tick) startedState).status = GStatus.failed ∧
    (run (es.map GEvent.tick) startedState).timeLeft = 0 :=
  ticks_reach_timeout es startedState ⟨rfl, rfl, rfl⟩ h

/-- C6 witness: a tick at 30 elapsed seconds followed by one at 61 elapsed
seconds fails the round with a zeroed clock. -/
theorem timeout_fails_round_witness :
    (∃ e ∈ [30, 61], 60 ≤ e) ∧
    ((run ([30, 61].map GEvent.tick) startedState).status = GStatus.failed ∧
      (run ([30, 61].map GEvent.tick) startedState).timeLeft = 0) :=
  ⟨by decide, timeout_fails_round [30, 61] (by decide)⟩

/-- The timeLeft bound invariant, strengthened with the captured timer
start value. -/
def timeBoundInv (s : GameM) : Prop :=
  0 ≤ s.timeLeft ∧ s.timeLeft ≤ 60 ∧ s.timerStart = 60

theorem step_timeBoundInv (e : GEvent) (s : GameM) (h : timeBoundInv s) :
    timeBoundInv (step e s) := by
  obtain ⟨h0, h60, hts⟩ := h
  have hw : ∀ x : GameM, (winCheck x).timeLeft = x.timeLeft ∧
      (winCheck x).timerStart = x.timerStart := fun x =>
    ⟨winCheck_timeLeft x, winCheck_timerStart x⟩
  have hf : ∀ x : GameM, (flagReset x).timeLeft = x.timeLeft ∧
      (flagReset x).timerStart = x.timerStart := fun x =>
    ⟨flagReset_timeLeft x, flagReset_timerStart x⟩
  have hred : ∀ x : GameM, timeBoundInv x → timeBoundInv (flagReset (winCheck x)) := by
    intro x hx
    refine ⟨?_, ?_, ?_⟩
    · rw [(hf _).1, (hw _).1]; exact hx.1
    · rw [(hf _).1, (hw _).1]; exact hx.2.1
    · rw [(hf _).2, (hw _).2]; exact hx.2.2
  apply hred
  cases e with
  | matchEvt =>
    rw [applyEvent]
    split
    · exact ⟨h0, h60, hts⟩
    · exact ⟨h0, h60, hts⟩
  | tick elapsed =>
    rw [applyEvent]
    by_cases hst : s.status = GStatus.playing
    · rw [if_pos hst]
      have hub : max 0 (s.timerStart - (elapsed : Int)) ≤ 60 := by
        rw [hts]
        apply max_le <;> omega
      have hlb : (0 : Int) ≤ max 0 (s.timerStart - (elapsed : Int)) :=
        le_max_left 0 _
      by_cases hz : max 0 (s.timerStart - (elapsed : Int)) = 0
      · rw [if_pos hz]
        exact ⟨le_refl 0, by show (0 : Int) ≤ 60; decide, hts⟩
      · rw [if_neg hz]
        exact ⟨hlb, hub, hts⟩
    · rw [if_neg hst]
      exact ⟨h0, h60, hts⟩
  | start =>
    exact ⟨show (0 : Int) ≤ GAME_DURATION by decide,
      show GAME_DURATION ≤ (60 : Int) by decide, rfl⟩
  | retrySame =>
    exact ⟨show (0 : Int) ≤ GAME_DURATION by decide,
      show GAME_DURATION ≤ (60 : Int) by decide, hts⟩
  | newTwister =>
    exact ⟨show (0 : Int) ≤ GAME_DURATION by decide,
      show GAME_DURATION ≤ (60 : Int) by decide, hts⟩

/-- C10: in every state reachable from the initial game state by any
sequence of events, timeLeft stays between 0 and the 60-second round
duration. -/
theorem timeLeft_invariant (es : List GEvent) :
    0 ≤ (run es initGame).timeLeft ∧ (run es initGame).timeLeft ≤ 60 := by
  have hgen : ∀ (l : List GEvent) (s : GameM), timeBoundInv s →
      timeBoundInv (run l s) := by
    intro l
    induction l with
    | nil => exact fun s h => h
    | cons e rest ih =>
      intro s h
      rw [run_cons]
      exact ih _ (step_timeBoundInv e s h)
  have h := hgen es initGame ⟨by decide, by decide, rfl⟩
  exact ⟨h.1, h.2.1⟩

/- ### The twister service (generateTwister) -/

/-- The JavaScript object resolved by response.json() in generateTwister.
The code performs no runtime validation, so each field of the
TwisterChallenge shape may be absent; an absent field is modelled as none. -/
structure JsTwisterObj where
  text : Option JsStr
  difficulty : Option JsStr
  theme : Option JsStr
deriving DecidableEq

/-- Outcome of reading the body of a fetch response: response.json() either
rejects (the body is not valid JSON) or resolves with the parsed object. -/
inductive FetchBody
  | invalidJson
  | json (v : JsTwisterObj)
deriving DecidableEq

/-- Outcome of the fetch call in generateTwister: the fetch promise rejects
(network error), or a response arrives with its ok flag and body. -/
inductive FetchOutcome
  | networkError
  | response (ok : Bool) (body : FetchBody)
deriving DecidableEq

/-- The fixed fallback twister returned from the catch block
(`src/unnamed/part_003:22-26`). -/
def fallbackTwister : JsTwisterObj :=
  { text := some (codes "Six slippery snails slid slowly seaward."),
    difficulty := some (codes "Medium"),
    theme := some (codes "Nature") }

/-- The try block of generateTwister (`src/unnamed/part_003:4-18`): throw on
a rejected fetch, throw on a non-ok response, throw if response.json()
rejects, and otherwise return the parsed object as-is with no field
validation. -/
def tryGenerateTwister : FetchOutcome → Except Unit JsTwisterObj
  | FetchOutcome.networkError => Except.error ()
  | FetchOutcome.response ok body =>
    if ok = false then Except.error ()
    else
      match body with
      | FetchBody.invalidJson => Except.error ()
      | FetchBody.json v => Except.ok v

/-- Model of generateTwister (`src/unnamed/part_003:3-28`): the try block
with every thrown error caught and replaced by the fixed fallback object.
Totality of this function is the model of the promise never rejecting. -/
def generateTwister (o : FetchOutcome) : JsTwisterObj :=
  match tryGenerateTwister o with
  | Except.ok v => v
  | Except.error _ => fallbackTwister

/-- C7 counterexample: a 200 response whose JSON body parses but is missing
every required field is returned as-is, not replaced by the fallback, so a
malformed upstream response is not treated like a network failure. -/
theorem generateTwister_missing_fields_cex :
    generateTwister
        (FetchOutcome.response true (FetchBody.json ⟨none, none, none⟩)) =
      ⟨none, none, none⟩ ∧
    (⟨none, none, none⟩ : JsTwisterObj) ≠ fallbackTwister :=
  ⟨by decide, by decide⟩

/-- C7 (amended): generateTwister never rejects; it resolves to the fixed
fallback object on a network error, on a non-ok HTTP response, and on a
response body that is not valid JSON, while a successfully parsed JSON body
is resolved unchanged even when required fields are missing. -/
theorem generateTwister_fallback_cases (b : FetchBody) (v : JsTwisterObj) :
    generateTwister FetchOutcome.networkError = fallbackTwister ∧
    generateTwister (FetchOutcome.response false b) = fallbackTwister ∧
    generateTwister (FetchOutcome.response true FetchBody.invalidJson) =
      fallbackTwister ∧
    generateTwister (FetchOutcome.response true (FetchBody.json v)) = v := by
  refine ⟨rfl, ?_, rfl, rfl⟩
  cases b <;> rfl

end TwisterBlitz
